import Mathlib

/-
Verification development for the `MRIfinufft` Fourier operator
(`src/mrinufft/operators/interfaces/cpu/finufft_interface.py`) and the density
utilities (`src/mrinufft/density/utils.py`).

Complex scalars are modelled as pairs of rationals (the code computes with
complex floating point; the algebraic structure of the claims is exact, so the
embedding uses exact arithmetic).  NumPy arrays are modelled as `List Cx`
(flattened); a stacked array of shape (n_coils, ...) is a `List (List Cx)`.
Fallible NumPy/finufft operations (writing a result into a preallocated output
buffer of the wrong size, elementwise arithmetic on length-mismatched arrays,
out-of-range indexing, Python TypeError) are modelled in the `Except String`
monad.
-/

/-- Complex number with exact rational components, modelling the complex64 and
complex128 values of the code. -/
structure Cx where
  re : ℚ
  im : ℚ
deriving DecidableEq

def Cx.add (a b : Cx) : Cx := ⟨a.re + b.re, a.im + b.im⟩

def Cx.sub (a b : Cx) : Cx := ⟨a.re - b.re, a.im - b.im⟩

def Cx.mul (a b : Cx) : Cx := ⟨a.re * b.re - a.im * b.im, a.re * b.im + a.im * b.re⟩

/-- Complex conjugate, as used by `smaps.conjugate()`. -/
def Cx.conj (a : Cx) : Cx := ⟨a.re, -a.im⟩

/-- Division of a complex value by a real scalar, as in `density /= np.abs(update)`. -/
def Cx.divQ (a : Cx) (r : ℚ) : Cx := ⟨a.re / r, a.im / r⟩

def Cx.zero : Cx := ⟨0, 0⟩

def Cx.one : Cx := ⟨1, 0⟩

def Cx.ofRe (r : ℚ) : Cx := ⟨r, 0⟩

/-- Elementwise complex multiplication of two equal-length arrays. -/
def cvMul (a b : List Cx) : List Cx := List.zipWith Cx.mul a b

/-- Elementwise complex subtraction of two equal-length arrays. -/
def cvSub (a b : List Cx) : List Cx := List.zipWith Cx.sub a b

/-- Elementwise complex addition of two equal-length arrays. -/
def cvAdd (a b : List Cx) : List Cx := List.zipWith Cx.add a b

/-- Elementwise complex conjugation, modelling `arr.conjugate()`. -/
def cvConj (a : List Cx) : List Cx := a.map Cx.conj

/-- Sum of a stack of images along the coil axis, modelling `np.sum(arr, axis=0)`
for an array of shape (n_coils, *image_shape) flattened per coil. -/
def sumImages (size : Nat) (imgs : List (List Cx)) : List Cx :=
  imgs.foldl cvAdd (List.replicate size Cx.zero)

/-- Fuel-driven splitting of a flat array into consecutive slices of length n,
modelling the per-transform slices of a batched (n_trans > 1) NUFFT execution
and the row-major reshape of a flat buffer into shape (k, n). -/
def chunksGo {α : Type} : Nat → Nat → List α → List (List α)
  | 0, _, _ => []
  | _ + 1, _, [] => []
  | fuel + 1, n, x :: xs => ((x :: xs).take n) :: chunksGo fuel n ((x :: xs).drop n)

def chunks {α : Type} (n : Nat) (l : List α) : List (List α) := chunksGo l.length n l

/-- Modelled from the spec: the external `RawFinufftPlan`
(`_finufft_interface.py`, not under src/) is treated per spec section 6 as an
opaque pair of executions for one transform each: `t1` (type-1, non-uniform to
uniform, adjoint/gridding) maps a coefficient vector to an image vector, and
`t2` (type-2, uniform to non-uniform, forward/sampling) maps an image vector to
a coefficient vector.  A batched execution over n_trans transforms applies the
single transform to each slice of its input (spec section 4.1: a batched
execution produces one independent result per coil). -/
structure RawPlan where
  t1 : List Cx → List Cx
  t2 : List Cx → List Cx

/-- State of a constructed `MRIfinufft` operator: image-shape size (product of
the `shape` tuple entries), sample count, stored sample coordinates, optional
density weights, coil count, SENSE flag, stored sensitivity maps (one flattened
image per coil; empty when SENSE is unused) and the raw NUFFT plan. -/
structure MRIfinufft where
  shapeSize : Nat
  nSamples : Nat
  samples : List (List ℚ)
  density : Option (List Cx)
  nCoils : Nat
  usesSense : Bool
  smaps : List (List Cx)
  plan : RawPlan

def errEmptyMax : String := "ValueError: zero-size array to reduction operation maximum"

def errDensityLen : String := "ValueError: Density array and samples array should have the same length."

def errNCoils : String := "ValueError: n_coils should be >= 1"

def errSmaps : String := "ValueError: Smaps should be either a C-ordered ndarray"

def errBufLen : String := "ValueError: output buffer length does not match the transform result"

def errBroadcast : String := "ValueError: operands could not be broadcast together"

def errIndex : String := "IndexError: index out of range"

def errOpSenseType : String := "TypeError: _op missing 1 required positional argument coeffs"

/-- Writing a transform result into a preallocated output buffer: the result
must have exactly the buffer length, otherwise the library raises. -/
def writeBuf (res : List Cx) (bufLen : Nat) : Except String (List Cx) :=
  if res.length = bufLen then .ok res else .error errBufLen

/-- Elementwise subtraction of equal-length arrays, modelling `a - b` /
`a -= b` on NumPy arrays of the same shape. -/
def cvSubE (a b : List Cx) : Except String (List Cx) :=
  if a.length = b.length then .ok (cvSub a b) else .error errBroadcast

/-- Row access `arr[i]` on a stacked array. -/
def getRow (rows : List (List Cx)) (i : Nat) : Except String (List Cx) :=
  match rows[i]? with
  | some r => .ok r
  | none => .error errIndex

/-- Fail-fast effectful map, collecting the per-element results of a loop body
in order and propagating the first raised error. -/
def mapME {α β : Type} (f : α → Except String β) : List α → Except String (List β)
  | [] => .ok []
  | a :: as =>
    match f a with
    | .error e => .error e
    | .ok r =>
      match mapME f as with
      | .error e => .error e
      | .ok rs => .ok (r :: rs)

/-- Ascending index list; `idxList 0 n` models `range(n)`. -/
def idxList : Nat → Nat → List Nat
  | _, 0 => []
  | s, k + 1 => s :: idxList (s + 1) k

/-- Source `_apply_dc`: multiply the coefficients by the density weights when
present (`coeffs * self.density`; NumPy broadcasts the length-n_samples weight
vector over each row of a stacked coefficient array). -/
def MRIfinufft.applyDc (o : MRIfinufft) (coeffs : List Cx) : List Cx :=
  match o.density with
  | some d => ((chunks o.nSamples coeffs).map (fun c => cvMul c d)).flatten
  | none => coeffs

/-- Batched type-1 execution of `raw_op.type1` on a (possibly stacked)
coefficient vector: the single transform is applied to each length-n_samples
slice. -/
def MRIfinufft.rawType1 (o : MRIfinufft) (coeffs : List Cx) : List Cx :=
  ((chunks o.nSamples coeffs).map o.plan.t1).flatten

/-- Batched type-2 execution of `raw_op.type2` on a (possibly stacked) image
vector: the single transform is applied to each image-sized slice. -/
def MRIfinufft.rawType2 (o : MRIfinufft) (image : List Cx) : List Cx :=
  ((chunks o.shapeSize image).map o.plan.t2).flatten

/-- Source `_op(image, coeffs)`: `raw_op.type2(coeffs, image)`, writing the
forward transform of `image` into the buffer `coeffs` of length `bufLen`. -/
def MRIfinufft.opPriv (o : MRIfinufft) (image : List Cx) (bufLen : Nat) :
    Except String (List Cx) :=
  writeBuf (o.rawType2 image) bufLen

/-- Source `_adj_op(coeffs, image)`: `raw_op.type1(self._apply_dc(coeffs), image)`,
writing the adjoint transform of the density-compensated coefficients into the
buffer `image` of length `bufLen`. -/
def MRIfinufft.adjOpPriv (o : MRIfinufft) (coeffs : List Cx) (bufLen : Nat) :
    Except String (List Cx) :=
  writeBuf (o.rawType1 (o.applyDc coeffs)) bufLen

/-- Source `_op_mono`: allocate `ksp = np.empty(n_samples)` and run
`self._op(data, ksp)`. -/
def MRIfinufft.opMono (o : MRIfinufft) (data : List Cx) : Except String (List Cx) :=
  o.opPriv data o.nSamples

/-- Source `_adj_op_mono`: allocate `img = np.empty(shape)` and run
`self._adj_op(coeffs, img)`. -/
def MRIfinufft.adjOpMono (o : MRIfinufft) (coeffs : List Cx) : Except String (List Cx) :=
  o.adjOpPriv coeffs o.shapeSize

/-- Source `_op_sense`: allocates `ksp = np.zeros((n_coils, n_samples))`,
computes `coil_img = data * self._smaps` (one weighted image per coil), then
calls `self._op(coil_img)`.  `_op` takes two required arguments `(image,
coeffs)`, so this call raises a Python TypeError; the zero-filled `ksp` that
the `return ksp` line would produce is never written by any transform. -/
def MRIfinufft.opSense (o : MRIfinufft) (data : List Cx) :
    Except String (List (List Cx)) :=
  let _ksp : List (List Cx) := List.replicate o.nCoils (List.replicate o.nSamples Cx.zero)
  let _coil_img : List (List Cx) := o.smaps.map (fun s => cvMul data s)
  .error errOpSenseType

/-- Source `_op_calibless`: allocate `ksp = np.empty((n_coils, n_samples))` and
run `self._op(data[i], ksp[i])` for each `i in range(n_coils)`. -/
def MRIfinufft.opCalibless (o : MRIfinufft) (data : List (List Cx)) :
    Except String (List (List Cx)) :=
  mapME (fun i =>
    match getRow data i with
    | .error e => .error e
    | .ok di => o.opPriv di o.nSamples) (idxList 0 o.nCoils)

/-- Source `_adj_op_sense`: allocates the per-coil buffer as
`coil_img = np.empty(self.shape)` (a single image, not an (n_coils, *shape)
stack), runs `self._adj_op(coeffs, coil_img)` on the full coefficient stack,
then returns `np.sum(coil_img * self._smaps.conjugate(), axis=0)`. -/
def MRIfinufft.adjOpSense (o : MRIfinufft) (coeffs : List (List Cx)) :
    Except String (List Cx) :=
  match o.adjOpPriv coeffs.flatten o.shapeSize with
  | .error e => .error e
  | .ok coilImg =>
      .ok (sumImages o.shapeSize (o.smaps.map (fun s => cvMul coilImg (cvConj s))))

/-- Source `_adj_op_calibless`: allocate `img = np.empty((n_coils, *shape))`
and run the single batched call `self._adj_op(coeffs, img)` on the full
coefficient stack; the flat buffer is viewed as one image per coil. -/
def MRIfinufft.adjOpCalibless (o : MRIfinufft) (coeffs : List (List Cx)) :
    Except String (List (List Cx)) :=
  match o.adjOpPriv coeffs.flatten (o.nCoils * o.shapeSize) with
  | .error e => .error e
  | .ok res => .ok (chunks o.shapeSize res)

/-- Modelled from the spec: the `uses_density` property lives on the base class
`FourierOperatorBase` (not under src/); per spec section 4.2 density
compensation is active exactly when density weights are present. -/
def MRIfinufft.usesDensity (o : MRIfinufft) : Bool := o.density.isSome

/-- Modelled from the spec: `self.density_d` is never assigned in the source
file (only `self.density` is); per spec section 4.4 the multiplication
`ksp *= self.density_d` stands for applying the operator density weight
vector. -/
def MRIfinufft.densityD (o : MRIfinufft) : List Cx := o.density.getD []

/-- Source `_data_consistency_mono`: `ksp = np.empty(n_samples)`;
`img = np.empty(shape)`; `self._op(image_data, ksp)`; `ksp -= obs_data`;
`self._adj_op(ksp, img)`; return `img`. -/
def MRIfinufft.dataConsistencyMono (o : MRIfinufft) (image_data obs_data : List Cx) :
    Except String (List Cx) :=
  match o.opPriv image_data o.nSamples with
  | .error e => .error e
  | .ok ksp =>
    match cvSubE ksp obs_data with
    | .error e => .error e
    | .ok ksp2 => o.adjOpPriv ksp2 o.shapeSize

/-- Source `_data_consistency_calibless`: `img = np.empty((n_coils, *shape))`;
`ksp = np.empty(n_samples)`; for each coil `i in range(n_coils)`:
`self._op(image_data[i], ksp)`; `ksp -= obs_data[i]`; if `uses_density`,
`ksp *= self.density_d`; `self._adj_op(ksp, img[i])`. -/
def MRIfinufft.dataConsistencyCalibless (o : MRIfinufft)
    (image_data obs_data : List (List Cx)) : Except String (List (List Cx)) :=
  mapME (fun i =>
    match getRow image_data i with
    | .error e => .error e
    | .ok xi =>
      match getRow obs_data i with
      | .error e => .error e
      | .ok yi =>
        match o.opPriv xi o.nSamples with
        | .error e => .error e
        | .ok ksp =>
          match cvSubE ksp yi with
          | .error e => .error e
          | .ok ksp2 =>
            let ksp3 := if o.usesDensity then cvMul ksp2 o.densityD else ksp2
            o.adjOpPriv ksp3 o.shapeSize) (idxList 0 o.nCoils)

/-- Naive composition `adj_op(op(x) - y)` of the public mono-mode paths, the
reference formulation the spec states for `data_consistency` in mono mode. -/
def naiveDataConsistencyMono (o : MRIfinufft) (x y : List Cx) :
    Except String (List Cx) :=
  match o.opMono x with
  | .error e => .error e
  | .ok ksp =>
    match cvSubE ksp y with
    | .error e => .error e
    | .ok r => o.adjOpMono r

/-- Maximum entry of a rational array, modelling `samples.max()`; `none` on the
empty array (NumPy raises there). -/
def listMax : List ℚ → Option ℚ
  | [] => none
  | x :: xs =>
    some (match listMax xs with
          | none => x
          | some m => max x m)

/-- The IEEE double value of `np.pi`, exactly 884279719003555 / 2^48. -/
def piQ : ℚ := 884279719003555 / 281474976710656

/-- The `density` constructor argument: `True` (estimate), `False`/absent, or
an explicit weight array. -/
inductive DensityArg where
  | dTrue : DensityArg
  | dFalse : DensityArg
  | arr : List Cx → DensityArg

/-- The `smaps` constructor argument when not `None`: the sensitivity-map data
(one flattened image per coil) together with whether the Python object is a
`np.ndarray` (the class the source tests with `isinstance`). -/
structure SmapsArg where
  isNdarray : Bool
  rows : List (List Cx)

/-- The iteration body of `estimate_density`: repeat `n_iter` times
`oper._adj_op(density, img)` (img buffer of image size),
`oper._op(img, update)` (update buffer of length n_samples),
`density /= np.abs(update)`.  The complex magnitude `np.abs` is irrational in
general, so it is passed in as the parameter `cabs`. -/
def edLoop (o : MRIfinufft) (cabs : Cx → ℚ) : Nat → List Cx → Except String (List Cx)
  | 0, d => .ok d
  | n + 1, d =>
    match o.adjOpPriv d o.shapeSize with
    | .error e => .error e
    | .ok img =>
      match o.opPriv img o.nSamples with
      | .error e => .error e
      | .ok update => edLoop o cabs n (List.zipWith (fun z u => z.divQ (cabs u)) d update)

/-- Source `MRIfinufft.__init__` (the finufft-availability guard is an
environment check and is outside the model; the raw plan, built externally
from the same samples and shape, is passed as `plan`; `cabs` is the complex
magnitude used by the `density=True` estimation branch).  Steps, in source
order: record `n_samples = len(samples)`; if `samples.max() > np.pi`, warn and
rescale `samples *= np.pi / samples.max()`; set up density (for an explicit
array, raise unless its length equals `len(samples)`; for `True`, run
`estimate_density` on a no-density operator over the same geometry with
`n_iter = 1`, storing the real weights); raise unless `n_coils >= 1`; for
`smaps is not None`, raise when `isinstance(smaps, np.ndarray)` holds (the
check the source actually performs) and otherwise store the maps and set the
SENSE flag.  Returns the operator and whether the rescale warning fired. -/
def mkOp (samples : List (List ℚ)) (shapeSize : Nat) (density : DensityArg)
    (n_coils : Nat) (smaps : Option SmapsArg) (plan : RawPlan) (cabs : Cx → ℚ) :
    Except String (MRIfinufft × Bool) :=
  match listMax samples.flatten with
  | none => .error errEmptyMax
  | some m =>
    let warned := piQ < m
    let samples' :=
      if piQ < m then samples.map (fun row => row.map (fun x => x * (piQ / m)))
      else samples
    let densRes : Except String (Option (List Cx)) :=
      match density with
      | .dTrue =>
        match edLoop
            { shapeSize := shapeSize, nSamples := samples.length, samples := samples',
              density := none, nCoils := 1, usesSense := false, smaps := [], plan := plan }
            cabs 1 (List.replicate samples.length Cx.one) with
        | .error e => .error e
        | .ok d => .ok (some ((d.map Cx.re).map Cx.ofRe))
      | .arr w =>
        if w.length ≠ samples.length then .error errDensityLen else .ok (some w)
      | .dFalse => .ok none
    match densRes with
    | .error e => .error e
    | .ok dens =>
      if n_coils < 1 then .error errNCoils
      else
        match smaps with
        | some s =>
          if s.isNdarray then .error errSmaps
          else
            .ok ({ shapeSize := shapeSize, nSamples := samples.length, samples := samples',
                   density := dens, nCoils := n_coils, usesSense := true,
                   smaps := s.rows, plan := plan }, warned)
        | none =>
          .ok ({ shapeSize := shapeSize, nSamples := samples.length, samples := samples',
                 density := dens, nCoils := n_coils, usesSense := false,
                 smaps := [], plan := plan }, warned)

/-- Source classmethod `estimate_density(samples, shape, n_iter=1)`: build
`oper = cls(samples, shape, density=False)`, set
`density = np.ones(len(samples), dtype=complex)`, run the fixed-point loop,
and return `density.real`. -/
def estimate_density (samples : List (List ℚ)) (shapeSize : Nat) (p : RawPlan)
    (cabs : Cx → ℚ) (n_iter : Nat) : Except String (List ℚ) :=
  match mkOp samples shapeSize DensityArg.dFalse 1 none p cabs with
  | .error e => .error e
  | .ok r =>
    match edLoop r.1 cabs n_iter (List.replicate samples.length Cx.one) with
    | .error e => .error e
    | .ok d => .ok (d.map Cx.re)

/-- Modelled from the spec (section 4.1, the reference algorithm for the C5
refinement): repeat n_iter times, starting from all-ones complex weights:
adjoint-transform the weights into image space, forward-transform that image
back to k-space as the update, and divide the weights elementwise by the
magnitude of the update. -/
def edSpecLoop (p : RawPlan) (cabs : Cx → ℚ) : Nat → List Cx → List Cx
  | 0, w => w
  | n + 1, w =>
    let img := p.t1 w
    let update := p.t2 img
    edSpecLoop p cabs n (List.zipWith (fun z u => z.divQ (cabs u)) w update)

/-- Modelled from the spec (section 4.1): the density estimation returns the
real part of the final weights of `edSpecLoop` started from all-ones. -/
def estimateDensitySpec (p : RawPlan) (cabs : Cx → ℚ) (nSamples : Nat)
    (n_iter : Nat) : List ℚ :=
  (edSpecLoop p cabs n_iter (List.replicate nSamples Cx.one)).map Cx.re

/-- Source `normalize_weights` (`src/mrinufft/density/utils.py`):
`inv_weights = np.sum(weights) / weights; return inv_weights / np.sum(inv_weights)`. -/
def normalize_weights (weights : List ℚ) : List ℚ :=
  let inv_weights := weights.map (fun w => weights.sum / w)
  inv_weights.map (fun x => x / inv_weights.sum)

/-- Identity raw plan over a one-sample, one-pixel geometry (concrete
fixture). -/
def idPlan : RawPlan := ⟨fun v => v, fun v => v⟩

/-- Summing raw plan: both directions produce the one-entry sum of their
input, so every output has length one (concrete fixture for 1-sample,
1-pixel geometries). -/
def sumPlan : RawPlan :=
  ⟨fun v => [v.foldl Cx.add Cx.zero], fun v => [v.foldl Cx.add Cx.zero]⟩

/-- Stand-in complex magnitude passed for the `cabs` parameter in concrete
instantiations. -/
def cAbsRe : Cx → ℚ := fun z => z.re

/-- Mono-mode operator fixture: one coil, one sample, one pixel, explicit
density weights. -/
def monoOpFix : MRIfinufft :=
  { shapeSize := 1, nSamples := 1, samples := [[0]], density := some [⟨2, 0⟩],
    nCoils := 1, usesSense := false, smaps := [], plan := idPlan }

/-- SENSE operator fixture: two coils, one sample, one pixel, two stored
sensitivity maps. -/
def senseOpFix : MRIfinufft :=
  { shapeSize := 1, nSamples := 1, samples := [[0]], density := none, nCoils := 2,
    usesSense := true, smaps := [[Cx.one], [⟨0, 1⟩]], plan := idPlan }

/-- Calibrationless operator fixture with density weights: two coils, one
sample, one pixel, weight vector [2]. -/
def dcCalibOpFix : MRIfinufft :=
  { shapeSize := 1, nSamples := 1, samples := [[0]], density := some [⟨2, 0⟩],
    nCoils := 2, usesSense := false, smaps := [], plan := idPlan }

/-- Calibrationless operator over geometry (sz, ns) and plan p: three coils,
no density compensation, no sensitivity maps. -/
def calibOp3 (p : RawPlan) (sz ns : Nat) : MRIfinufft :=
  { shapeSize := sz, nSamples := ns, samples := [], density := none, nCoils := 3,
    usesSense := false, smaps := [], plan := p }

/-- Mono-mode operator over the same geometry and plan: one coil, no density
compensation. -/
def monoOp1 (p : RawPlan) (sz ns : Nat) : MRIfinufft :=
  { shapeSize := sz, nSamples := ns, samples := [], density := none, nCoils := 1,
    usesSense := false, smaps := [], plan := p }

/-- C1: in mono mode (n_coils = 1), for every image x and observed k-space
vector y of length n_samples, `data_consistency(x, y)` (the fused per-coil
computation: forward transform into a buffer, in-place subtraction of y,
adjoint transform with density compensation) returns the same image as the
naive composition `adj_op(op(x) - y)` of the public mono paths. -/
theorem dc_mono_matches_naive (o : MRIfinufft) (x y : List Cx)
    (_hmono : o.nCoils = 1) (_hy : y.length = o.nSamples) :
    o.dataConsistencyMono x y = naiveDataConsistencyMono o x y := rfl

theorem dc_mono_matches_naive_witness :
    monoOpFix.nCoils = 1 ∧ ([(⟨3, 1⟩ : Cx)]).length = monoOpFix.nSamples ∧
    monoOpFix.dataConsistencyMono [⟨2, 5⟩] [⟨3, 1⟩] =
      naiveDataConsistencyMono monoOpFix [⟨2, 5⟩] [⟨3, 1⟩] :=
  ⟨rfl, rfl, dc_mono_matches_naive monoOpFix [⟨2, 5⟩] [⟨3, 1⟩] rfl rfl⟩

/-- C2 (code bug evidence): in SENSE mode `op` never returns the k-space
coefficients of the sensitivity-weighted images: for every operator and input
image the source `_op_sense` calls `self._op(coil_img)` without the required
output argument, raising a TypeError, so no transform result (only the
propagated error) is ever produced. -/
theorem op_sense_raises_type_error (o : MRIfinufft) (data : List Cx) :
    o.opSense data = .error errOpSenseType := rfl

/-- C3 (code bug evidence): in SENSE mode `adj_op` allocates the per-coil
buffer as a single image (`coil_img = np.empty(self.shape)`) instead of an
(n_coils, *shape) stack, so the batched type-1 result of the two-coil
coefficient stack does not fit the buffer and the call fails instead of
producing one image per coil. -/
theorem adj_op_sense_buffer_mismatch :
    senseOpFix.adjOpSense [[Cx.one], [Cx.one]] = .error errBufLen := rfl

theorem chunksGo_flatten {α : Type} (n : Nat) (hn : 0 < n) :
    ∀ (ls : List (List α)) (fuel : Nat), (∀ r ∈ ls, r.length = n) →
      ls.flatten.length ≤ fuel → chunksGo fuel n ls.flatten = ls := by
  intro ls
  induction ls with
  | nil =>
    intro fuel _ _
    cases fuel <;> rfl
  | cons r rs ih =>
    intro fuel hlen hfuel
    have hr : r.length = n := hlen r (by simp)
    have hflat : (r :: rs).flatten = r ++ rs.flatten := by simp
    obtain ⟨x, xs, hx⟩ : ∃ x xs, r ++ rs.flatten = x :: xs := by
      cases r with
      | nil => simp at hr; omega
      | cons a as => exact ⟨a, as ++ rs.flatten, by simp⟩
    rw [hflat] at hfuel ⊢
    cases fuel with
    | zero =>
      exfalso
      have : 0 < (r ++ rs.flatten).length := by rw [hx]; simp
      omega
    | succ f =>
      rw [hx, chunksGo, ← hx, List.take_left' hr, List.drop_left' hr]
      have hrest : rs.flatten.length ≤ f := by
        rw [List.length_append] at hfuel
        omega
      rw [ih f (fun s hs => hlen s (by simp [hs])) hrest]

theorem chunks_flatten {α : Type} (n : Nat) (hn : 0 < n) (ls : List (List α))
    (h : ∀ r ∈ ls, r.length = n) : chunks n ls.flatten = ls :=
  chunksGo_flatten n hn ls ls.flatten.length h le_rfl

theorem chunks_self {α : Type} (n : Nat) (hn : 0 < n) (l : List α)
    (h : l.length = n) : chunks n l = [l] := by
  have h2 := chunks_flatten n hn [l] (by simpa using h)
  simpa using h2

theorem flatten_uniform_length {α : Type} (k : Nat) :
    ∀ (ls : List (List α)), (∀ r ∈ ls, r.length = k) →
      ls.flatten.length = ls.length * k := by
  intro ls
  induction ls with
  | nil => simp
  | cons r rs ih =>
    intro h
    have hr : r.length = k := h r (by simp)
    have hrs := ih (fun s hs => h s (by simp [hs]))
    simp only [List.flatten_cons, List.length_append, List.length_cons, hr, hrs,
      Nat.succ_mul]
    exact Nat.add_comm _ _

/-- C4 (code bug evidence): in calibrationless mode with density weights
present, `data_consistency` applies the density weights to the per-coil
residual twice — once via the explicit `ksp *= self.density_d` in the loop and
again inside `self._adj_op` through `_apply_dc`.  On the identity plan with
weight vector [2], per-coil image 1 and observation 0, the code produces 4
(= 2 * 2 * residual) per coil, while a single application of the weights to
the residual before the adjoint transform gives 2. -/
theorem dc_calibless_density_applied_twice :
    dcCalibOpFix.dataConsistencyCalibless [[⟨1, 0⟩], [⟨1, 0⟩]] [[Cx.zero], [Cx.zero]] =
      .ok [[⟨4, 0⟩], [⟨4, 0⟩]] ∧
    dcCalibOpFix.plan.t1 (cvMul dcCalibOpFix.densityD
        (cvSub (dcCalibOpFix.plan.t2 [⟨1, 0⟩]) [Cx.zero])) = [⟨2, 0⟩] ∧
    ((⟨4, 0⟩ : Cx) ≠ ⟨2, 0⟩) := by
  refine ⟨?_, ?_, by simp⟩ <;>
    norm_num [MRIfinufft.dataConsistencyCalibless, MRIfinufft.opPriv,
      MRIfinufft.adjOpPriv, MRIfinufft.rawType1, MRIfinufft.rawType2,
      MRIfinufft.applyDc, MRIfinufft.usesDensity, MRIfinufft.densityD,
      mapME, idxList, getRow, writeBuf, cvSubE, cvSub, cvMul, chunks, chunksGo,
      dcCalibOpFix, idPlan, Cx.mul, Cx.sub, Cx.zero, Cx.one]

/-- C6: in calibrationless mode with n_coils = 3 and no density compensation,
`op` and `adj_op` produce per-coil outputs in which coil i's slice equals a
separate mono-mode operator (n_coils = 1, same geometry and plan) applied to
coil i's data alone, each coil's output depending only on that coil's input. -/
theorem calibless_matches_mono (p : RawPlan) (sz ns : Nat)
    (h1 : ∀ v, (p.t1 v).length = sz) (hsz : 0 < sz) (hns : 0 < ns)
    (data coeffs : List (List Cx))
    (hd : data.length = 3) (hc : coeffs.length = 3)
    (hcl : ∀ r ∈ coeffs, r.length = ns) :
    (calibOp3 p sz ns).opCalibless data =
      mapME (fun d => (monoOp1 p sz ns).opMono d) data ∧
    (calibOp3 p sz ns).adjOpCalibless coeffs =
      mapME (fun c => (monoOp1 p sz ns).adjOpMono c) coeffs := by
  obtain ⟨a, b, c, rfl⟩ : ∃ a b c, data = [a, b, c] := by
    match data, hd with
    | [a, b, c], _ => exact ⟨a, b, c, rfl⟩
  obtain ⟨u, v, w, rfl⟩ : ∃ u v w, coeffs = [u, v, w] := by
    match coeffs, hc with
    | [u, v, w], _ => exact ⟨u, v, w, rfl⟩
  constructor
  · rfl
  · have hu : u.length = ns := hcl u (by simp)
    have hv : v.length = ns := hcl v (by simp)
    have hw : w.length = ns := hcl w (by simp)
    have hchunks : chunks ns ([u, v, w].flatten) = [u, v, w] :=
      chunks_flatten ns hns [u, v, w] hcl
    have hlen3 : (([u, v, w].map p.t1).flatten).length = 3 * sz := by
      have := flatten_uniform_length sz ([u, v, w].map p.t1)
        (by intro s hs; simp at hs; rcases hs with h | h | h <;> simp [h, h1])
      simpa using this
    have hchunks2 : chunks sz (p.t1 u ++ (p.t1 v ++ p.t1 w)) =
        [p.t1 u, p.t1 v, p.t1 w] := by
      have h2 := chunks_flatten sz hsz [p.t1 u, p.t1 v, p.t1 w] (by simp [h1])
      simpa using h2
    simp only [MRIfinufft.adjOpCalibless, MRIfinufft.adjOpPriv, MRIfinufft.applyDc,
      MRIfinufft.rawType1, MRIfinufft.adjOpMono, calibOp3, monoOp1, mapME, writeBuf,
      hchunks, hlen3,
      chunks_self ns hns u hu, chunks_self ns hns v hv, chunks_self ns hns w hw]
    simp [writeBuf, h1, mapME, hchunks2]

theorem calibless_matches_mono_witness :
    (calibOp3 sumPlan 1 1).opCalibless [[⟨1, 0⟩], [⟨2, 0⟩], [⟨0, 3⟩]] =
      mapME (fun d => (monoOp1 sumPlan 1 1).opMono d) [[⟨1, 0⟩], [⟨2, 0⟩], [⟨0, 3⟩]] ∧
    (calibOp3 sumPlan 1 1).adjOpCalibless [[⟨1, 1⟩], [⟨2, 0⟩], [⟨0, 1⟩]] =
      mapME (fun c => (monoOp1 sumPlan 1 1).adjOpMono c) [[⟨1, 1⟩], [⟨2, 0⟩], [⟨0, 1⟩]] :=
  calibless_matches_mono sumPlan 1 1 (fun _ => rfl) (by omega) (by omega)
    [[⟨1, 0⟩], [⟨2, 0⟩], [⟨0, 3⟩]] [[⟨1, 1⟩], [⟨2, 0⟩], [⟨0, 1⟩]] rfl rfl
    (by intro r hr; simp at hr; rcases hr with rfl | rfl | rfl <;> rfl)

theorem edLoop_eq_spec (o : MRIfinufft) (cabs : Cx → ℚ)
    (hden : o.density = none)
    (h1 : ∀ v, (o.plan.t1 v).length = o.shapeSize)
    (h2 : ∀ v, (o.plan.t2 v).length = o.nSamples)
    (hns : 0 < o.nSamples) (hsz : 0 < o.shapeSize) :
    ∀ (n : Nat) (d : List Cx), d.length = o.nSamples →
      edLoop o cabs n d = .ok (edSpecLoop o.plan cabs n d) := by
  intro n
  induction n with
  | zero => intro d _; rfl
  | succ k ih =>
    intro d hd
    have hstep1 : o.adjOpPriv d o.shapeSize = .ok (o.plan.t1 d) := by
      simp [MRIfinufft.adjOpPriv, MRIfinufft.applyDc, MRIfinufft.rawType1, hden,
        chunks_self o.nSamples hns d hd, writeBuf, h1]
    have hstep2 : o.opPriv (o.plan.t1 d) o.nSamples = .ok (o.plan.t2 (o.plan.t1 d)) := by
      simp [MRIfinufft.opPriv, MRIfinufft.rawType2,
        chunks_self o.shapeSize hsz (o.plan.t1 d) (h1 d), writeBuf, h2]
    rw [edLoop, edSpecLoop]
    simp only [hstep1, hstep2]
    exact ih _ (by simp [hd, h2])

theorem mkOp_dFalse_none (samples : List (List ℚ)) (sz n_coils : Nat) (p : RawPlan)
    (cabs : Cx → ℚ) (m : ℚ) (hm : listMax samples.flatten = some m)
    (hc : 1 ≤ n_coils) :
    mkOp samples sz DensityArg.dFalse n_coils none p cabs =
      .ok ({ shapeSize := sz, nSamples := samples.length,
             samples := if piQ < m then
               samples.map (fun row => row.map (fun x => x * (piQ / m)))
             else samples,
             density := none, nCoils := n_coils, usesSense := false,
             smaps := [], plan := p }, decide (piQ < m)) := by
  unfold mkOp
  rw [hm]
  have hlt : ¬ n_coils < 1 := by omega
  simp only [hlt, if_false, ite_false]

/-- C5: for every samples array, shape and n_iter >= 1, `estimate_density`
initializes a complex all-ones weight vector of length len(samples), builds an
operator on the same geometry with density compensation disabled, and repeats
n_iter times: adjoint-transform the weights into image space,
forward-transform that image back to k-space as the update, divide the weights
elementwise by the magnitude of the update; it returns the real part of the
final weights, as captured by the spec-side `estimateDensitySpec`. -/
theorem estimate_density_matches_spec (samples : List (List ℚ)) (sz : Nat)
    (p : RawPlan) (cabs : Cx → ℚ) (n_iter : Nat) (m : ℚ)
    (hm : listMax samples.flatten = some m)
    (h1 : ∀ v, (p.t1 v).length = sz)
    (h2 : ∀ v, (p.t2 v).length = samples.length)
    (hns : 0 < samples.length) (hsz : 0 < sz) (_hiter : 1 ≤ n_iter) :
    estimate_density samples sz p cabs n_iter =
      .ok (estimateDensitySpec p cabs samples.length n_iter) := by
  unfold estimate_density
  rw [mkOp_dFalse_none samples sz 1 p cabs m hm le_rfl]
  have hloop := edLoop_eq_spec
    { shapeSize := sz, nSamples := samples.length,
      samples := if piQ < m then
        samples.map (fun row => row.map (fun x => x * (piQ / m)))
      else samples,
      density := none, nCoils := 1, usesSense := false, smaps := [], plan := p }
    cabs rfl h1 h2 hns hsz n_iter (List.replicate samples.length Cx.one) (by simp)
  simp only [hloop]
  rfl

theorem estimate_density_matches_spec_witness :
    estimate_density [[(0 : ℚ)]] 1 sumPlan cAbsRe 1 =
      .ok (estimateDensitySpec sumPlan cAbsRe 1 1) :=
  estimate_density_matches_spec [[(0 : ℚ)]] 1 sumPlan cAbsRe 1 0 rfl
    (fun _ => rfl) (fun _ => rfl) (by simp) (by omega) (by omega)

theorem piQ_pos : 0 < piQ := by norm_num [piQ]

theorem listMax_map_mul_pos (c : ℚ) (hc : 0 < c) :
    ∀ l : List ℚ, listMax (l.map (fun x => x * c)) = (listMax l).map (fun x => x * c) := by
  intro l
  induction l with
  | nil => rfl
  | cons x xs ih =>
    rw [List.map_cons, listMax, listMax, ih]
    cases hxs : listMax xs with
    | none => simp
    | some m => simp [max_mul_of_nonneg x m hc.le]

theorem flatten_map_map {α β : Type} (f : α → β) :
    ∀ (ls : List (List α)), (ls.map (fun r => r.map f)).flatten = ls.flatten.map f := by
  intro ls
  induction ls with
  | nil => rfl
  | cons r rs ih =>
    rw [List.map_cons, List.flatten_cons, List.flatten_cons, List.map_append, ih]

/-- C7 counterexample: the constructor checks `samples.max() > np.pi`, not the
maximum magnitude.  With the single sample coordinate -4 the maximum is -4, no
rescaling happens, and the stored coordinate -4 has magnitude above pi.  With
coordinates [-20, 4] the maximum 4 does trigger rescaling by pi/4, but the
rescaled coordinate -20 * (pi/4) = -5 pi still has magnitude above pi, so
neither the claimed invariant nor max(abs(samples)) == pi holds. -/
theorem samples_invariant_counterexample :
    ((mkOp [[(-4 : ℚ)]] 1 DensityArg.dFalse 1 none idPlan cAbsRe).map
        (fun r => r.1.samples) = .ok [[(-4 : ℚ)]] ∧
      ¬ |(-4 : ℚ)| ≤ piQ) ∧
    ((mkOp [[(-20 : ℚ)], [4]] 1 DensityArg.dFalse 1 none idPlan cAbsRe).map
        (fun r => r.1.samples) =
          .ok [[(-20 : ℚ) * (piQ / 4)], [(4 : ℚ) * (piQ / 4)]] ∧
      ¬ |(-20 : ℚ) * (piQ / 4)| ≤ piQ) := by
  have h1 : ¬ piQ < (-4 : ℚ) := by norm_num [piQ]
  have h2 : piQ < (4 : ℚ) := by norm_num [piQ]
  have hm1 : listMax ([[(-4 : ℚ)]].flatten) = some (-4) := rfl
  have hm2 : listMax ([[(-20 : ℚ)], [4]].flatten) = some 4 := by
    show listMax [(-20 : ℚ), 4] = some 4
    simp only [listMax]
    rw [max_eq_right (by norm_num : (-20 : ℚ) ≤ 4)]
  refine ⟨⟨?_, ?_⟩, ?_, ?_⟩
  · rw [mkOp_dFalse_none [[(-4 : ℚ)]] 1 1 idPlan cAbsRe (-4) hm1 le_rfl]
    simp [Except.map, h1]
  · norm_num [piQ, abs_le]
  · rw [mkOp_dFalse_none [[(-20 : ℚ)], [4]] 1 1 idPlan cAbsRe 4 hm2 le_rfl]
    simp [Except.map, h2]
  · norm_num [piQ, abs_le]

/-- C7 (amended): after construction the samples are rescaled only when
`max(samples)` exceeds pi: in that case every coordinate is multiplied by
pi / max(samples) (so the stored maximum equals pi exactly) and the warning
fires; otherwise the samples are stored unchanged and no warning is emitted.
Coordinates below -pi are neither detected nor bounded. -/
theorem samples_normalization_amended (samples : List (List ℚ)) (sz : Nat)
    (p : RawPlan) (cabs : Cx → ℚ) (m : ℚ)
    (hm : listMax samples.flatten = some m) :
    (piQ < m →
      ∃ o, mkOp samples sz DensityArg.dFalse 1 none p cabs = .ok (o, true) ∧
        o.samples = samples.map (fun row => row.map (fun x => x * (piQ / m))) ∧
        listMax o.samples.flatten = some piQ) ∧
    (¬ piQ < m →
      ∃ o, mkOp samples sz DensityArg.dFalse 1 none p cabs = .ok (o, false) ∧
        o.samples = samples) := by
  have hbase := mkOp_dFalse_none samples sz 1 p cabs m hm le_rfl
  constructor
  · intro h
    have hmpos : 0 < m := lt_trans piQ_pos h
    refine ⟨{ shapeSize := sz, nSamples := samples.length,
              samples := samples.map (fun row => row.map (fun x => x * (piQ / m))),
              density := none, nCoils := 1, usesSense := false, smaps := [],
              plan := p }, ?_, rfl, ?_⟩
    · rw [hbase]
      simp [h]
    · rw [flatten_map_map, listMax_map_mul_pos _ (div_pos piQ_pos hmpos), hm]
      simp only [Option.map_some']
      congr 1
      field_simp
  · intro h
    refine ⟨{ shapeSize := sz, nSamples := samples.length, samples := samples,
              density := none, nCoils := 1, usesSense := false, smaps := [],
              plan := p }, ?_, rfl⟩
    rw [hbase]
    simp [h]

theorem samples_normalization_amended_witness :
    ∃ o, mkOp [[(4 : ℚ)]] 1 DensityArg.dFalse 1 none idPlan cAbsRe = .ok (o, true) ∧
      o.samples = [[(4 : ℚ)]].map (fun row => row.map (fun x => x * (piQ / 4))) ∧
      listMax o.samples.flatten = some piQ :=
  (samples_normalization_amended [[(4 : ℚ)]] 1 idPlan cAbsRe 4 rfl).1
    (by norm_num [piQ])

/-- C8 (code bug evidence): the sensitivity-map validation is an inverted
isinstance test, not a shape check.  Construction with a correctly shaped
ndarray smaps (2 coils, image size 1, maps of shape (2, 1)) raises the
"Smaps should be either a C-ordered ndarray" ValueError, while a non-ndarray
smaps object whose shape does not match (1 map for 2 coils) is accepted and
enables SENSE mode; the shape is never compared to (n_coils, *image_shape). -/
theorem smaps_validation_inverted :
    mkOp [[(0 : ℚ)]] 1 DensityArg.dFalse 2 (some ⟨true, [[Cx.one], [Cx.one]]⟩)
        idPlan cAbsRe = .error errSmaps ∧
    ([[Cx.one], [Cx.one]] : List (List Cx)).length = 2 ∧
    (∀ r ∈ ([[Cx.one], [Cx.one]] : List (List Cx)), r.length = 1) ∧
    (∃ o, mkOp [[(0 : ℚ)]] 1 DensityArg.dFalse 2 (some ⟨false, [[Cx.one]]⟩)
        idPlan cAbsRe = .ok (o, false) ∧ o.usesSense = true ∧
        o.smaps = [[Cx.one]] ∧ o.smaps.length ≠ o.nCoils) := by
  have h0 : ¬ piQ < (0 : ℚ) := by norm_num [piQ]
  refine ⟨?_, rfl, ?_, ?_⟩
  · unfold mkOp
    simp [listMax, h0]
  · intro r hr
    simp at hr
    subst hr
    rfl
  · refine ⟨{ shapeSize := 1, nSamples := 1, samples := [[(0 : ℚ)]], density := none,
              nCoils := 2, usesSense := true, smaps := [[Cx.one]], plan := idPlan },
            ?_, rfl, rfl, by simp⟩
    unfold mkOp
    simp [listMax, h0]

/-- C9: for an explicitly supplied density weight array, construction fails
with the length-mismatch ValueError exactly when the weight count differs from
the sample count, and otherwise succeeds and stores the array as the density
weights. -/
theorem density_length_validation (samples : List (List ℚ)) (sz n_coils : Nat)
    (w : List Cx) (p : RawPlan) (cabs : Cx → ℚ) (m : ℚ)
    (hm : listMax samples.flatten = some m) (hc : 1 ≤ n_coils) :
    (w.length ≠ samples.length →
      mkOp samples sz (DensityArg.arr w) n_coils none p cabs = .error errDensityLen) ∧
    (w.length = samples.length →
      ∃ o warned, mkOp samples sz (DensityArg.arr w) n_coils none p cabs =
          .ok (o, warned) ∧ o.density = some w) := by
  have hlt : ¬ n_coils < 1 := by omega
  constructor
  · intro hne
    unfold mkOp
    rw [hm]
    simp [hne]
  · intro heq
    unfold mkOp
    rw [hm]
    simp only [heq, ne_eq, not_true_eq_false, if_false, ite_false, hlt]
    exact ⟨_, _, rfl, rfl⟩

theorem density_length_validation_witness :
    mkOp [[(1 : ℚ)]] 1 (DensityArg.arr []) 1 none idPlan cAbsRe =
      .error errDensityLen :=
  (density_length_validation [[(1 : ℚ)]] 1 1 [] idPlan cAbsRe 1 rfl le_rfl).1
    (by simp)

theorem getD_map_lt {α β : Type} (f : α → β) :
    ∀ (l : List α) (i : Nat), i < l.length → ∀ (d : β) (d0 : α),
      (l.map f).getD i d = f (l.getD i d0) := by
  intro l
  induction l with
  | nil => intro i hi; simp at hi
  | cons x xs ih =>
    intro i hi d d0
    cases i with
    | zero => rfl
    | succ j =>
      simp only [List.map_cons, List.getD_cons_succ]
      exact ih j (by simpa using hi) d d0

theorem getD_mem_of_lt {α : Type} :
    ∀ (l : List α) (i : Nat) (d : α), i < l.length → l.getD i d ∈ l := by
  intro l
  induction l with
  | nil => intro i d hi; simp at hi
  | cons x xs ih =>
    intro i d hi
    cases i with
    | zero => simp
    | succ j =>
      simp only [List.getD_cons_succ]
      exact List.mem_cons_of_mem _ (ih j d (by simpa using hi))

theorem sum_map_div (l : List ℚ) (c : ℚ) :
    (l.map (fun x => x / c)).sum = l.sum / c := by
  induction l with
  | nil => simp
  | cons x xs ih => simp [ih, add_div]

/-- C10: for a non-empty vector of strictly positive weights,
`normalize_weights` returns a vector of the same length, summing to one, with
entry i equal to (sum(w) / w_i) / (sum_j sum(w) / w_j); consequently a
strictly larger input weight yields a strictly smaller output weight. -/
theorem normalize_weights_properties (w : List ℚ) (hne : w ≠ [])
    (hpos : ∀ x ∈ w, 0 < x) :
    (normalize_weights w).length = w.length ∧
    (normalize_weights w).sum = 1 ∧
    (∀ i, i < w.length → (normalize_weights w).getD i 0 =
      (w.sum / w.getD i 0) / ((w.map (fun x => w.sum / x)).sum)) ∧
    (∀ i j, i < w.length → j < w.length → w.getD j 0 < w.getD i 0 →
      (normalize_weights w).getD i 0 < (normalize_weights w).getD j 0) := by
  have hs : 0 < w.sum := List.sum_pos w hpos hne
  have hinvpos : ∀ x ∈ w.map (fun x => w.sum / x), 0 < x := by
    intro x hx
    simp only [List.mem_map] at hx
    obtain ⟨a, ha, rfl⟩ := hx
    exact div_pos hs (hpos a ha)
  have hinvne : w.map (fun x => w.sum / x) ≠ [] := by
    simpa using hne
  have ht : 0 < (w.map (fun x => w.sum / x)).sum :=
    List.sum_pos _ hinvpos hinvne
  have hentry : ∀ i, i < w.length → (normalize_weights w).getD i 0 =
      (w.sum / w.getD i 0) / ((w.map (fun x => w.sum / x)).sum) := by
    intro i hi
    have e1 : (normalize_weights w).getD i 0 =
        (w.map (fun x => w.sum / x)).getD i 0 /
          ((w.map (fun x => w.sum / x)).sum) :=
      getD_map_lt _ _ i (by simpa using hi) 0 0
    have e2 : (w.map (fun x => w.sum / x)).getD i 0 = w.sum / w.getD i 0 :=
      getD_map_lt _ _ i hi 0 0
    rw [e1, e2]
  refine ⟨by simp [normalize_weights], ?_, hentry, ?_⟩
  · show ((w.map (fun x => w.sum / x)).map
      (fun x => x / (w.map (fun x => w.sum / x)).sum)).sum = 1
    rw [sum_map_div, div_self (ne_of_gt ht)]
  · intro i j hi hj hji
    rw [hentry i hi, hentry j hj]
    have hwi : 0 < w.getD i 0 := hpos _ (getD_mem_of_lt w i 0 hi)
    have hwj : 0 < w.getD j 0 := hpos _ (getD_mem_of_lt w j 0 hj)
    have hfrac : w.sum / w.getD i 0 < w.sum / w.getD j 0 :=
      div_lt_div_of_pos_left hs hwj hji
    exact (div_lt_div_iff_of_pos_right ht).2 hfrac

theorem normalize_weights_properties_witness :
    (normalize_weights [(1 : ℚ), 2]).sum = 1 ∧
    (normalize_weights [(1 : ℚ), 2]).length = 2 :=
  ⟨(normalize_weights_properties [(1 : ℚ), 2] (by simp)
      (by intro x hx; simp at hx; rcases hx with rfl | rfl <;> norm_num)).2.1,
   (normalize_weights_properties [(1 : ℚ), 2] (by simp)
      (by intro x hx; simp at hx; rcases hx with rfl | rfl <;> norm_num)).1⟩
